import Mathlib

/-!
Shallow embedding of the GFS retention core of the pg-backup repository:
the functions `getISOWeek` and `getMonthKey` (src/gfs.ts, lines 13-47) and
`classifyBackups` and `getBackupsToPrune` (src/gfs.ts, lines 67-241).

Modelling conventions:

* A backup timestamp is modelled as the integer count of milliseconds since
  the Unix epoch that JavaScript obtains by parsing the ISO timestamp string
  stored in a manifest (`new Date(m.timestamp).getTime()`).
* JavaScript strings are modelled as lists of characters; `localeCompare`
  on the ASCII week/month keys used by the classifier is modelled as the
  lexicographic order on code points.
* The UTC calendar accessors of the ECMAScript `Date` object
  (`getUTCFullYear`, `getUTCMonth`, `getUTCDate`, `getUTCDay`, `Date.UTC`,
  `setUTCDate`) are modelled by the standard proleptic-Gregorian
  days-to-civil and civil-to-days conversions.  Division below is the `/`
  of `Int` (Euclidean); for the positive divisors appearing here it agrees
  with the floor semantics that ECMAScript date arithmetic uses.
* `Array.prototype.sort` is required by ECMAScript to be stable; any stable
  sort by a consistent comparator computes the same list, so it is modelled
  by stable insertion sort (`List.insertionSort`).
-/

/-! ### JavaScript number-to-string and string comparison -/

/-- The ASCII digit character for `n` (`0`-`9` for `n ≤ 9`). -/
def digitChar (n : Nat) : Char := Char.ofNat (48 + n)

/-- Fuel-driven decimal printer; with fuel `> n` it produces the usual
base-10 numeral, most significant digit first. -/
def jsNatReprAux : Nat → Nat → List Char
  | 0, _ => []
  | fuel + 1, n =>
    if n < 10 then [digitChar n] else jsNatReprAux fuel (n / 10) ++ [digitChar (n % 10)]

/-- Model of the JavaScript decimal rendering of a non-negative number. -/
def jsNatRepr (n : Nat) : List Char := jsNatReprAux (n + 1) n

/-- Model of the JavaScript decimal rendering of an integer. -/
def jsIntRepr (z : Int) : List Char :=
  if z < 0 then '-' :: jsNatRepr (-z).toNat else jsNatRepr z.toNat

/-- Model of `s.padStart(2, "0")`. -/
def padStart2 (s : List Char) : List Char :=
  if s.length < 2 then List.replicate (2 - s.length) '0' ++ s else s

/-- Strict lexicographic comparison of JavaScript strings by code point;
model of `a < b` and of `a.localeCompare(b) < 0` on the ASCII keys used by
the classifier. -/
def jsStrLt : List Char → List Char → Bool
  | [], [] => false
  | [], _ :: _ => true
  | _ :: _, [] => false
  | a :: s, b :: t =>
    if a.toNat < b.toNat then true else if b.toNat < a.toNat then false else jsStrLt s t

/-! ### Model of the ECMAScript UTC calendar

`doeOf`/`eraOf` split a day count (days since 1970-01-01) into a 400-year
era and a day-of-era; `yoeOfDoe` .. `dayOfDoe` recover year-of-era, month
and day, and `daysFromCivil` is the inverse conversion used for `Date.UTC`.
-/

/-- Day-of-era (0 .. 146096) of a day count, eras starting 0000-03-01. -/
def doeOf (z : Int) : Nat := ((z + 719468) % 146097).toNat

/-- Era index of a day count. -/
def eraOf (z : Int) : Int := (z + 719468) / 146097

/-- Cumulative days from the start of an era to the start of year-of-era
`y` (March-based years). -/
def cumDays (y : Nat) : Nat := 365 * y + y / 4 - y / 100

/-- The scaled-year quantity of the day-of-era to year conversion. -/
def xOf (doe : Nat) : Nat := doe - doe / 1460 + doe / 36524 - doe / 146096

/-- Year-of-era (0 .. 399) containing a day-of-era. -/
def yoeOfDoe (doe : Nat) : Nat := xOf doe / 365

/-- Day-of-year (March-based, 0 .. 365) of a day-of-era. -/
def doyOfDoe (doe : Nat) : Nat := doe - cumDays (yoeOfDoe doe)

/-- Shifted month index (0 = March .. 11 = February) of a day-of-era. -/
def mpOfDoe (doe : Nat) : Nat := (5 * doyOfDoe doe + 2) / 153

/-- Civil month (1 .. 12) of a day-of-era. -/
def monthOfDoe (doe : Nat) : Nat :=
  if mpOfDoe doe < 10 then mpOfDoe doe + 3 else mpOfDoe doe - 9

/-- Civil day of month (1 .. 31) of a day-of-era. -/
def dayOfDoe (doe : Nat) : Nat := doyOfDoe doe - (153 * mpOfDoe doe + 2) / 5 + 1

/-- Civil date (year, month 1-12, day 1-31) of a day count: the model of
the `getUTCFullYear` / `getUTCMonth` / `getUTCDate` accessors. -/
def civilFromDays (z : Int) : Int × Nat × Nat :=
  (eraOf z * 400 + yoeOfDoe (doeOf z) + (if monthOfDoe (doeOf z) ≤ 2 then 1 else 0),
   monthOfDoe (doeOf z), dayOfDoe (doeOf z))

/-- March-based year adjustment for the civil-to-days conversion. -/
def yAdjOf (y : Int) (m : Nat) : Int := if m ≤ 2 then y - 1 else y

/-- Year-of-era of a civil year/month. -/
def yoeOfYM (y : Int) (m : Nat) : Nat := (yAdjOf y m - yAdjOf y m / 400 * 400).toNat

/-- March-based day-of-year of a civil month/day. -/
def doyOfMD (m d : Nat) : Nat := (153 * (if 2 < m then m - 3 else m + 9) + 2) / 5 + d - 1

/-- Day count of a civil date: the model of `Date.UTC(y, m-1, d) / 86400000`. -/
def daysFromCivil (y : Int) (m d : Nat) : Int :=
  yAdjOf y m / 400 * 146097
    + ((365 * yoeOfYM y m + yoeOfYM y m / 4 - yoeOfYM y m / 100 + doyOfMD m d : Nat) : Int)
    - 719468

/-- The UTC day count containing an instant (milliseconds since epoch). -/
def utcDayOf (ms : Int) : Int := ms / 86400000

/-- Model of `date.getUTCFullYear()`. -/
def yearOf (ms : Int) : Int := (civilFromDays (utcDayOf ms)).1

/-- Model of `date.getUTCMonth() + 1` (civil month 1 .. 12). -/
def monthOf (ms : Int) : Nat := (civilFromDays (utcDayOf ms)).2.1

/-- Model of `date.getUTCDate()`. -/
def dayOfMonthOf (ms : Int) : Nat := (civilFromDays (utcDayOf ms)).2.2

/-- Day count of the UTC midnight copy made at the top of `getISOWeek`
(`new Date(Date.UTC(date.getUTCFullYear(), date.getUTCMonth(),
date.getUTCDate()))`, src/gfs.ts lines 15-17). -/
def midnightDayOf (ms : Int) : Int :=
  daysFromCivil (yearOf ms) (monthOf ms) (dayOfMonthOf ms)

/-- Model of `getUTCDay()` on a day count: 0 = Sunday .. 6 = Saturday
(1970-01-01 was a Thursday). -/
def weekdayOf (t : Int) : Nat := ((t + 4) % 7).toNat

/-- Day count of the Thursday of the ISO week containing the instant
(`dayNum = d.getUTCDay() || 7; d.setUTCDate(d.getUTCDate() + 4 - dayNum)`,
src/gfs.ts lines 20-22). -/
def thursdayOf (ms : Int) : Int :=
  midnightDayOf ms + 4 -
    ((if weekdayOf (midnightDayOf ms) = 0 then 7 else weekdayOf (midnightDayOf ms)) : Nat)

/-- Embedding of `getISOWeek` (src/gfs.ts lines 13-36): the ISO-8601 week
numbering year and week number of an instant, all in UTC. -/
def getISOWeek (ms : Int) : Int × Int :=
  ((civilFromDays (thursdayOf ms)).1,
   (thursdayOf ms - daysFromCivil (civilFromDays (thursdayOf ms)).1 1 1 + 1 + 6) / 7)

/-- Embedding of `getMonthKey` (src/gfs.ts lines 39-47): the string
`"YYYY-MM"` of the UTC year and zero-padded month of an instant. -/
def getMonthKey (ms : Int) : List Char :=
  jsIntRepr (yearOf ms) ++ '-' :: padStart2 (jsNatRepr (monthOf ms))

/-- The week key string built in phase 2 of `classifyBackups`
(src/gfs.ts line 101): the template literal
of the ISO year, a dash, the letter W and the zero-padded week. -/
def weekKeyOf (ms : Int) : List Char :=
  jsIntRepr (getISOWeek ms).1 ++ '-' :: 'W' :: padStart2 (jsIntRepr (getISOWeek ms).2)

/-! ### Bounded checks used by the calendar correctness proofs

`okYear` records, for one year-of-era, the two checkpoint facts that pin
down `yoeOfDoe`; `okYearTree` evaluates it on a power-of-two range with
logarithmic recursion depth so that the kernel can evaluate it. -/

/-- Capped cumulative-days boundary: the start of year-of-era `y`, with the
era end (146097 days) as the boundary after the final year. -/
def cumDays2 (y : Nat) : Nat := if 400 ≤ y then 146097 else cumDays y

/-- Checkpoint facts for year-of-era `y` (vacuous above 399). -/
def okYear (y : Nat) : Bool :=
  decide (400 ≤ y) ||
    (decide (xOf (cumDays y) = 365 * y) && decide (xOf (cumDays2 (y + 1) - 1) ≤ 365 * y + 364))

/-- Balanced conjunction of `okYear` over `[lo, lo + 2 ^ f)`. -/
def okYearTree : Nat → Nat → Bool
  | 0, lo => okYear lo
  | f + 1, lo => okYearTree f lo && okYearTree f (lo + 2 ^ f)

/-! ### Data model of the classifier

`BackupManifest` keeps the two fields of the manifest record that the
retention core reads: the unique identifier and the parsed timestamp.
`GFSConfig` and `BackupTier` and `TieredBackup` mirror the types of
src/types.ts used by src/gfs.ts. -/

structure BackupManifest where
  id : String
  timestamp : Int
deriving DecidableEq, Repr

instance : Inhabited BackupManifest := ⟨⟨"", 0⟩⟩

inductive BackupTier
  | daily
  | weekly
  | monthly
  | prunable
deriving DecidableEq, Repr

structure TieredBackup where
  manifest : BackupManifest
  tier : BackupTier
  tierReason : List Char
deriving DecidableEq, Repr

structure GFSConfig where
  daily : Nat
  weekly : Nat
  monthly : Nat
deriving DecidableEq, Repr

/-! ### Sort orders used by the classifier

Each relation states when the JavaScript comparator lets its first argument
come before the second (comparator value not positive); stable insertion
sort with such a relation computes the list that the stable
`Array.prototype.sort` produces. -/

/-- Order of `(a, b) => new Date(b.timestamp) - new Date(a.timestamp)`. -/
def tsDesc (a b : BackupManifest) : Prop := b.timestamp ≤ a.timestamp

/-- Order of `(a, b) => new Date(a.timestamp) - new Date(b.timestamp)`. -/
def tsAsc (a b : BackupManifest) : Prop := a.timestamp ≤ b.timestamp

/-- Order of the final `result.sort` (newest manifest first). -/
def recTsDesc (a b : TieredBackup) : Prop := b.manifest.timestamp ≤ a.manifest.timestamp

/-- Order of the prune selection sort (oldest manifest first). -/
def recTsAsc (a b : TieredBackup) : Prop := a.manifest.timestamp ≤ b.manifest.timestamp

/-- Order of `(a, b) => b.weekKey.localeCompare(a.weekKey)` on keyed
candidates (largest key first). -/
def keyDesc (a b : List Char × BackupManifest) : Prop := jsStrLt a.1 b.1 = false

instance : DecidableRel tsDesc :=
  fun a b => inferInstanceAs (Decidable (b.timestamp ≤ a.timestamp))

instance : DecidableRel tsAsc :=
  fun a b => inferInstanceAs (Decidable (a.timestamp ≤ b.timestamp))

instance : DecidableRel recTsDesc :=
  fun a b => inferInstanceAs (Decidable (b.manifest.timestamp ≤ a.manifest.timestamp))

instance : DecidableRel recTsAsc :=
  fun a b => inferInstanceAs (Decidable (a.manifest.timestamp ≤ b.manifest.timestamp))

instance : DecidableRel keyDesc :=
  fun a b => inferInstanceAs (Decidable (jsStrLt a.1 b.1 = false))

instance : IsTotal BackupManifest tsDesc := ⟨fun a b => Int.le_total b.timestamp a.timestamp⟩

instance : IsTrans BackupManifest tsDesc := ⟨fun _ _ _ h1 h2 => Int.le_trans h2 h1⟩

instance : IsTotal TieredBackup recTsDesc :=
  ⟨fun a b => Int.le_total b.manifest.timestamp a.manifest.timestamp⟩

instance : IsTrans TieredBackup recTsDesc := ⟨fun _ _ _ h1 h2 => Int.le_trans h2 h1⟩

instance : IsTotal TieredBackup recTsAsc :=
  ⟨fun a b => Int.le_total a.manifest.timestamp b.manifest.timestamp⟩

instance : IsTrans TieredBackup recTsAsc := ⟨fun _ _ _ h1 h2 => Int.le_trans h1 h2⟩

/-! ### The classifier (src/gfs.ts lines 67-241)

The four phases of `classifyBackups` are written as one definition per
phase; the `assigned` identifier set that the source mutates appears as the
explicit identifier lists `assignedIds2` and `assignedIds3`, and the
JavaScript `Map` grouping (insertion ordered, values pushed in encounter
order) is `groupByKey`. -/

/-- One step of building the insertion-ordered group map
(`weekGroups.get(key).push(manifest)` with first-use insertion). -/
def insertGroup (k : List Char) (a : BackupManifest) :
    List (List Char × List BackupManifest) → List (List Char × List BackupManifest)
  | [] => [(k, [a])]
  | g :: gs => if g.1 = k then (g.1, g.2 ++ [a]) :: gs else g :: insertGroup k a gs

/-- Model of the JavaScript `Map` built by pushing each element into the
group of its key, groups ordered by first key occurrence. -/
def groupByKey (key : BackupManifest → List Char) (l : List BackupManifest) :
    List (List Char × List BackupManifest) :=
  l.foldl (fun acc a => insertGroup (key a) a acc) []

/-- `sortedByTime[0]` of a group: its oldest manifest (stable ascending
sort, then first element). -/
def oldestOf (g : List BackupManifest) : BackupManifest := (List.insertionSort tsAsc g).headI

/-- The per-group promotion candidates, one per group, in group order. -/
def candidatesOf (gs : List (List Char × List BackupManifest)) :
    List (List Char × BackupManifest) :=
  gs.map (fun g => (g.1, oldestOf g.2))

/-- Reason string of the daily tier: the text `newest ` followed by the daily count. -/
def newestReason (n : Nat) : List Char := "newest ".toList ++ jsNatRepr n

/-- Reason string of the weekly tier: the text `week ` followed by the week key. -/
def weekReason (k : List Char) : List Char := "week ".toList ++ k

/-- Reason string of the monthly tier: the text `month ` followed by the month key. -/
def monthReason (k : List Char) : List Char := "month ".toList ++ k

/-- Reason string of the prunable tier. -/
def exceedsReason : List Char := "exceeds retention".toList

/-- Phase 1: the newest `config.daily` backups of the sorted input
(src/gfs.ts lines 84-93). -/
def dailyPart (s : List BackupManifest) (c : GFSConfig) : List BackupManifest :=
  s.take c.daily

/-- The backups left for phase 2: those whose identifier was not assigned
in phase 1 (src/gfs.ts line 97). -/
def remaining1 (s : List BackupManifest) (c : GFSConfig) : List BackupManifest :=
  s.filter (fun m => !(((dailyPart s c).map (fun n => n.id)).contains m.id))

/-- Phase 2: week-keyed candidates (oldest of each ISO week group), sorted
by week key descending, cut to the weekly limit (src/gfs.ts lines 98-135). -/
def weeklyPart (s : List BackupManifest) (c : GFSConfig) :
    List (List Char × BackupManifest) :=
  (List.insertionSort keyDesc
    (candidatesOf (groupByKey (fun m => weekKeyOf m.timestamp) (remaining1 s c)))).take c.weekly

/-- Identifiers assigned after phases 1 and 2. -/
def assignedIds2 (s : List BackupManifest) (c : GFSConfig) : List String :=
  (dailyPart s c).map (fun n => n.id) ++ (weeklyPart s c).map (fun p => p.2.id)

/-- The backups left for phase 3 (src/gfs.ts line 139). -/
def remaining2 (s : List BackupManifest) (c : GFSConfig) : List BackupManifest :=
  s.filter (fun m => !((assignedIds2 s c).contains m.id))

/-- Phase 3: month-keyed candidates, sorted by month key descending, cut to
the monthly limit (src/gfs.ts lines 140-177). -/
def monthlyPart (s : List BackupManifest) (c : GFSConfig) :
    List (List Char × BackupManifest) :=
  (List.insertionSort keyDesc
    (candidatesOf (groupByKey (fun m => getMonthKey m.timestamp) (remaining2 s c)))).take c.monthly

/-- Identifiers assigned after phases 1 to 3. -/
def assignedIds3 (s : List BackupManifest) (c : GFSConfig) : List String :=
  assignedIds2 s c ++ (monthlyPart s c).map (fun p => p.2.id)

/-- Phase 4: everything still unassigned is prunable (src/gfs.ts
lines 180-188). -/
def prunablePart (s : List BackupManifest) (c : GFSConfig) : List BackupManifest :=
  s.filter (fun m => !((assignedIds3 s c).contains m.id))

/-- The classifier body on the already sorted input: the four phase outputs
with their tier and reason, re-sorted newest first (src/gfs.ts
lines 80-197). -/
def classifySorted (s : List BackupManifest) (c : GFSConfig) : List TieredBackup :=
  List.insertionSort recTsDesc
    ((dailyPart s c).map (fun m => ⟨m, .daily, newestReason c.daily⟩)
      ++ (weeklyPart s c).map (fun p => ⟨p.2, .weekly, weekReason p.1⟩)
      ++ (monthlyPart s c).map (fun p => ⟨p.2, .monthly, monthReason p.1⟩)
      ++ (prunablePart s c).map (fun m => ⟨m, .prunable, exceedsReason⟩))

/-- Embedding of `classifyBackups` (src/gfs.ts lines 67-198): empty guard,
stable sort newest first, then the four assignment phases. -/
def classifyBackups (manifests : List BackupManifest) (config : GFSConfig) :
    List TieredBackup :=
  if manifests.length = 0 then []
  else classifySorted (List.insertionSort tsDesc manifests) config

/-- Embedding of `getBackupsToPrune` (src/gfs.ts lines 208-241): classify,
keep the prunable records, re-sort them oldest first and cut to
`max(0, total - minKeep)` (natural subtraction is that clamped difference).
The `keepCount` binding of the source is computed but never used, so it has
no counterpart here. -/
def getBackupsToPrune (manifests : List BackupManifest) (config : GFSConfig)
    (minKeep : Nat) : List TieredBackup :=
  if manifests.length = 0 then []
  else
    (List.insertionSort recTsAsc
      ((classifyBackups manifests config).filter (fun t => t.tier == .prunable))).take
      (manifests.length - minKeep)

/-- Concatenation of the contents of a group list (proof helper). -/
def groupsFlat (gs : List (List Char × List BackupManifest)) : List BackupManifest :=
  (gs.map (fun g => g.2)).flatten

/-- The four ASCII digits of a year in `[1000, 9999]` (proof helper). -/
def fourDigits (y : Nat) : List Char :=
  [digitChar (y / 1000), digitChar (y / 100 % 10), digitChar (y / 10 % 10), digitChar (y % 10)]

/-- The two ASCII digits of a zero-padded number in `[0, 99]` (proof
helper). -/
def twoDigits (w : Nat) : List Char := [digitChar (w / 10), digitChar (w % 10)]

/-! ### Calendar correctness -/

theorem okYearTree_spec : ∀ f lo, okYearTree f lo = true → ∀ i, i < 2 ^ f → okYear (lo + i) = true := by
  intro f
  induction f with
  | zero =>
    intro lo h i hi
    interval_cases i
    · exact h
  | succ f ih =>
    intro lo h i hi
    rw [okYearTree, Bool.and_eq_true] at h
    by_cases hc : i < 2 ^ f
    · exact ih lo h.1 i hc
    · have h2 : i - 2 ^ f < 2 ^ f := by
        have := Nat.pow_succ 2 f
        omega
      have := ih (lo + 2 ^ f) h.2 (i - 2 ^ f) h2
      have harr : lo + 2 ^ f + (i - 2 ^ f) = lo + i := by omega
      rwa [harr] at this

theorem okYearTree_all : okYearTree 9 0 = true := by decide

theorem okYear_all (y : Nat) (h : y ≤ 399) :
    xOf (cumDays y) = 365 * y ∧ xOf (cumDays2 (y + 1) - 1) ≤ 365 * y + 364 := by
  have h0 := okYearTree_spec 9 0 okYearTree_all y (by omega)
  rw [Nat.zero_add] at h0
  rw [okYear, Bool.or_eq_true, Bool.and_eq_true] at h0
  rcases h0 with h0 | h0
  · simp only [decide_eq_true_eq] at h0
    omega
  · exact ⟨of_decide_eq_true h0.1, of_decide_eq_true h0.2⟩

theorem xOf_mono {d1 d2 : Nat} (h : d1 ≤ d2) : xOf d1 ≤ xOf d2 := by
  induction d2 with
  | zero => simp_all
  | succ d ih =>
    rcases Nat.lt_or_ge d1 (d + 1) with h1 | h1
    · have step : xOf d ≤ xOf (d + 1) := by unfold xOf; omega
      exact Nat.le_trans (ih (by omega)) step
    · have : d1 = d + 1 := by omega
      simp [this]

theorem cumDays2_step (y : Nat) (h : y ≤ 399) :
    cumDays2 y + 365 ≤ cumDays2 (y + 1) ∧ cumDays2 (y + 1) ≤ cumDays2 y + 366 := by
  unfold cumDays2 cumDays
  split <;> split <;> omega

theorem year_exists : ∀ doe, doe < 146097 →
    ∃ y, y ≤ 399 ∧ cumDays2 y ≤ doe ∧ doe < cumDays2 (y + 1) := by
  intro doe
  induction doe with
  | zero => exact fun _ => ⟨0, by omega, by decide, by decide⟩
  | succ d ih =>
    intro h
    obtain ⟨y, hy, hlo, hhi⟩ := ih (by omega)
    rcases Nat.lt_or_ge (d + 1) (cumDays2 (y + 1)) with hc | hc
    · exact ⟨y, hy, by omega, hc⟩
    · have hy1 : y + 1 ≤ 399 := by
        by_contra hcon
        have hy399 : y = 399 := by omega
        subst hy399
        have h400 : cumDays2 (399 + 1) = 146097 := by decide
        omega
      have hs := cumDays2_step (y + 1) hy1
      exact ⟨y + 1, hy1, by omega, by omega⟩

theorem yoeOfDoe_eq (doe y : Nat) (hy : y ≤ 399) (hlo : cumDays2 y ≤ doe)
    (hhi : doe < cumDays2 (y + 1)) : yoeOfDoe doe = y := by
  obtain ⟨hstart, hend⟩ := okYear_all y hy
  have hcum : cumDays2 y = cumDays y := by unfold cumDays2; split <;> omega
  have h1 : 365 * y ≤ xOf doe := by
    have := xOf_mono (hcum ▸ hlo)
    omega
  have h2 : xOf doe ≤ 365 * y + 364 := by
    have := xOf_mono (show doe ≤ cumDays2 (y + 1) - 1 by omega)
    omega
  unfold yoeOfDoe
  omega

theorem doe_facts (doe : Nat) (h : doe < 146097) :
    cumDays (yoeOfDoe doe) ≤ doe ∧ doe - cumDays (yoeOfDoe doe) ≤ 365 ∧ yoeOfDoe doe ≤ 399 := by
  obtain ⟨y, hy, hlo, hhi⟩ := year_exists doe h
  have heq := yoeOfDoe_eq doe y hy hlo hhi
  have hcum : cumDays2 y = cumDays y := by unfold cumDays2; split <;> omega
  have hs := cumDays2_step y hy
  rw [heq]
  omega

theorem doeOf_lt (z : Int) : doeOf z < 146097 := by unfold doeOf; omega

theorem doy_facts (doe : Nat) (h : doe < 146097) :
    doyOfDoe doe ≤ 365 ∧ 1 ≤ monthOfDoe doe ∧ monthOfDoe doe ≤ 12 ∧
    1 ≤ dayOfDoe doe ∧ dayOfDoe doe ≤ 31 ∧
    doyOfMD (monthOfDoe doe) (dayOfDoe doe) = doyOfDoe doe ∧
    cumDays (yoeOfDoe doe) + doyOfDoe doe = doe := by
  have df := doe_facts doe h
  have hq : doyOfDoe doe ≤ 365 ∧ cumDays (yoeOfDoe doe) + doyOfDoe doe = doe := by
    unfold doyOfDoe; omega
  have hmp : mpOfDoe doe ≤ 11 := by unfold mpOfDoe; omega
  have hd5 : (153 * mpOfDoe doe + 2) / 5 ≤ doyOfDoe doe ∧
      doyOfDoe doe < (153 * mpOfDoe doe + 2) / 5 + 31 := by
    unfold mpOfDoe; omega
  by_cases hc : mpOfDoe doe < 10
  · have hm : monthOfDoe doe = mpOfDoe doe + 3 := by unfold monthOfDoe; rw [if_pos hc]
    have hif : doyOfMD (monthOfDoe doe) (dayOfDoe doe) = doyOfDoe doe := by
      unfold doyOfMD dayOfDoe
      rw [hm, if_pos (by omega)]
      have h3 : mpOfDoe doe + 3 - 3 = mpOfDoe doe := by omega
      rw [h3]
      omega
    refine ⟨hq.1, ?_, ?_, ?_, ?_, hif, hq.2⟩ <;> simp only [dayOfDoe, hm] <;> omega
  · have hm : monthOfDoe doe = mpOfDoe doe - 9 := by unfold monthOfDoe; rw [if_neg hc]
    have hif : doyOfMD (monthOfDoe doe) (dayOfDoe doe) = doyOfDoe doe := by
      unfold doyOfMD dayOfDoe
      rw [hm, if_neg (by omega)]
      have h3 : mpOfDoe doe - 9 + 9 = mpOfDoe doe := by omega
      rw [h3]
      omega
    refine ⟨hq.1, ?_, ?_, ?_, ?_, hif, hq.2⟩ <;> simp only [dayOfDoe, hm] <;> omega

theorem daysFromCivil_civilFromDays (z : Int) :
    daysFromCivil (civilFromDays z).1 (civilFromDays z).2.1 (civilFromDays z).2.2 = z := by
  have hlt := doeOf_lt z
  have hrel : (doeOf z : Int) = z + 719468 - 146097 * eraOf z := by
    unfold doeOf eraOf; omega
  obtain ⟨hdoy, hm1, hm2, hd1, hd2, hrec, hsum⟩ := doy_facts (doeOf z) hlt
  have hyoe : yoeOfDoe (doeOf z) ≤ 399 := (doe_facts (doeOf z) hlt).2.2
  show daysFromCivil
      (eraOf z * 400 + yoeOfDoe (doeOf z) + (if monthOfDoe (doeOf z) ≤ 2 then 1 else 0))
      (monthOfDoe (doeOf z)) (dayOfDoe (doeOf z)) = z
  unfold daysFromCivil
  have hadj : yAdjOf
      (eraOf z * 400 + yoeOfDoe (doeOf z) + (if monthOfDoe (doeOf z) ≤ 2 then 1 else 0))
      (monthOfDoe (doeOf z)) = eraOf z * 400 + yoeOfDoe (doeOf z) := by
    unfold yAdjOf
    by_cases hc : monthOfDoe (doeOf z) ≤ 2 <;> simp [hc]
  rw [yoeOfYM, hadj, hrec]
  have hera : (eraOf z * 400 + (yoeOfDoe (doeOf z) : Int)) / 400 = eraOf z := by omega
  have hyoeYM : (eraOf z * 400 + (yoeOfDoe (doeOf z) : Int) -
      (eraOf z * 400 + (yoeOfDoe (doeOf z) : Int)) / 400 * 400).toNat = yoeOfDoe (doeOf z) := by
    omega
  rw [hyoeYM, hera]
  unfold cumDays at hsum
  omega

theorem daysFromCivil_jan1 (Y : Int) : daysFromCivil Y 1 1 =
    (Y - 1) / 400 * 146097 +
      ((365 * ((Y - 1) - (Y - 1) / 400 * 400).toNat +
        ((Y - 1) - (Y - 1) / 400 * 400).toNat / 4 -
        ((Y - 1) - (Y - 1) / 400 * 400).toNat / 100 + 306 : Nat) : Int) - 719468 := by
  simp only [daysFromCivil, yAdjOf, yoeOfYM, doyOfMD]
  norm_num

theorem doyOfMD_low (m d : Nat) (hm1 : 1 ≤ m) (hc : m ≤ 2) (hd1 : 1 ≤ d) (hd2 : d ≤ 31) :
    306 ≤ doyOfMD m d ∧ doyOfMD m d ≤ 367 := by
  unfold doyOfMD
  rw [if_neg (show ¬ 2 < m by omega)]
  omega

theorem doyOfMD_high (m d : Nat) (hc : 3 ≤ m) (hm2 : m ≤ 12) (hd1 : 1 ≤ d) (hd2 : d ≤ 31) :
    doyOfMD m d ≤ 305 := by
  unfold doyOfMD
  rw [if_pos (show 2 < m by omega)]
  omega

theorem daysFromCivil_jan1_bound (Y : Int) (m d : Nat) (hm1 : 1 ≤ m) (hm2 : m ≤ 12)
    (hd1 : 1 ≤ d) (hd2 : d ≤ 31) :
    daysFromCivil Y 1 1 ≤ daysFromCivil Y m d ∧
    daysFromCivil Y m d ≤ daysFromCivil Y 1 1 + 365 := by
  rw [daysFromCivil_jan1]
  unfold daysFromCivil yAdjOf yoeOfYM
  by_cases hc : m ≤ 2
  · have hb := doyOfMD_low m d hm1 hc hd1 hd2
    have hadj : yAdjOf Y m = Y - 1 := by unfold yAdjOf; rw [if_pos hc]
    rw [hadj]
    omega
  · have hb := doyOfMD_high m d (by omega) hm2 hd1 hd2
    have hadj : yAdjOf Y m = Y := by unfold yAdjOf; rw [if_neg hc]
    rw [hadj]
    omega

theorem monthOf_bounds (ms : Int) : 1 ≤ monthOf ms ∧ monthOf ms ≤ 12 := by
  have h := doy_facts (doeOf (utcDayOf ms)) (doeOf_lt (utcDayOf ms))
  exact ⟨h.2.1, h.2.2.1⟩

theorem getISOWeek_bounds (ms : Int) : 1 ≤ (getISOWeek ms).2 ∧ (getISOWeek ms).2 ≤ 53 := by
  have hlt := doeOf_lt (thursdayOf ms)
  obtain ⟨-, hm1, hm2, hd1, hd2, -, -⟩ := doy_facts (doeOf (thursdayOf ms)) hlt
  have hrt := daysFromCivil_civilFromDays (thursdayOf ms)
  have hb := daysFromCivil_jan1_bound (civilFromDays (thursdayOf ms)).1
    (civilFromDays (thursdayOf ms)).2.1 (civilFromDays (thursdayOf ms)).2.2 hm1 hm2 hd1 hd2
  rw [hrt] at hb
  show 1 ≤ (thursdayOf ms - daysFromCivil (civilFromDays (thursdayOf ms)).1 1 1 + 1 + 6) / 7 ∧
    (thursdayOf ms - daysFromCivil (civilFromDays (thursdayOf ms)).1 1 1 + 1 + 6) / 7 ≤ 53
  omega

/-- C6: `getISOWeek` at 2025-12-29T00:00:00Z (1766966400000 ms) yields ISO
year 2026 week 1, at 2025-12-28T00:00:00Z (1766880000000 ms) yields 2025
week 52, and at 2021-01-01T00:00:00Z (1609459200000 ms) yields 2020
week 53. -/
theorem isoWeek_concrete_values :
    getISOWeek 1766966400000 = (2026, 1) ∧ getISOWeek 1766880000000 = (2025, 52) ∧
    getISOWeek 1609459200000 = (2020, 53) := by
  exact ⟨by decide, by decide, by decide⟩

/-- C7: `getISOWeek` is a total function of the instant (it is defined by
total arithmetic, with no error branch), and on every instant the returned
week number lies between 1 and 53. -/
theorem isoWeek_total_and_in_range :
    ∀ ms : Int, 1 ≤ (getISOWeek ms).2 ∧ (getISOWeek ms).2 ≤ 53 :=
  fun ms => getISOWeek_bounds ms


/-! ### Decimal strings and their order -/

theorem digitChar_toNat (n : Nat) (h : n ≤ 9) : (digitChar n).toNat = 48 + n := by
  interval_cases n <;> decide

theorem jsNatReprAux_fuel (f1 : Nat) : ∀ f2 n, n < f1 → n < f2 →
    jsNatReprAux f1 n = jsNatReprAux f2 n := by
  induction f1 with
  | zero => omega
  | succ a ih =>
    intro f2 n h1 h2
    match f2, h2 with
    | b + 1, _ =>
      show jsNatReprAux (a + 1) n = jsNatReprAux (b + 1) n
      rw [jsNatReprAux, jsNatReprAux]
      by_cases hn : n < 10
      · rw [if_pos hn, if_pos hn]
      · rw [if_neg hn, if_neg hn, ih b (n / 10) (by omega) (by omega)]

theorem jsNatRepr_lt10 (n : Nat) (h : n < 10) : jsNatRepr n = [digitChar n] := by
  rw [jsNatRepr, jsNatReprAux, if_pos h]

theorem jsNatRepr_ge10 (n : Nat) (h : 10 ≤ n) :
    jsNatRepr n = jsNatRepr (n / 10) ++ [digitChar (n % 10)] := by
  rw [jsNatRepr, jsNatReprAux, if_neg (by omega)]
  rw [jsNatReprAux_fuel n (n / 10 + 1) (n / 10) (by omega) (by omega)]
  rfl

theorem jsNatRepr_two (n : Nat) (h1 : 10 ≤ n) (h2 : n ≤ 99) : jsNatRepr n = twoDigits n := by
  rw [jsNatRepr_ge10 n h1, jsNatRepr_lt10 (n / 10) (by omega), twoDigits]
  rfl

theorem jsNatRepr_four (n : Nat) (h1 : 1000 ≤ n) (h2 : n ≤ 9999) :
    jsNatRepr n = fourDigits n := by
  rw [jsNatRepr_ge10 n (by omega), jsNatRepr_ge10 (n / 10) (by omega),
    jsNatRepr_ge10 (n / 10 / 10) (by omega), jsNatRepr_lt10 (n / 10 / 10 / 10) (by omega)]
  have e3 : n / 10 / 10 = n / 100 := by omega
  have e4 : n / 10 / 10 / 10 = n / 1000 := by omega
  rw [e3] at *
  rw [e4]
  simp [fourDigits]

theorem padStart2_two (n : Nat) (h : n ≤ 99) : padStart2 (jsNatRepr n) = twoDigits n := by
  by_cases hn : n < 10
  · rw [jsNatRepr_lt10 n hn, padStart2]
    have hdiv : n / 10 = 0 := by omega
    have hmod : n % 10 = n := by omega
    simp [twoDigits, hdiv, hmod, List.replicate]
    rfl
  · rw [jsNatRepr_two n (by omega) h, padStart2, twoDigits]
    simp

theorem jsStrLt_cons (a b : Char) (s t : List Char) :
    jsStrLt (a :: s) (b :: t) =
      if a.toNat < b.toNat then true else if b.toNat < a.toNat then false else jsStrLt s t :=
  rfl

theorem jsStrLt_same_cons (c : Char) (s t : List Char) :
    jsStrLt (c :: s) (c :: t) = jsStrLt s t := by
  rw [jsStrLt_cons]
  simp

theorem jsStrLt_digit_cons (a b : Nat) (ha : a ≤ 9) (hb : b ≤ 9) (s t : List Char) :
    (jsStrLt (digitChar a :: s) (digitChar b :: t) = true) ↔
      (a < b ∨ (a = b ∧ jsStrLt s t = true)) := by
  rw [jsStrLt_cons, digitChar_toNat a ha, digitChar_toNat b hb]
  by_cases h1 : 48 + a < 48 + b
  · rw [if_pos h1]
    exact iff_of_true rfl (Or.inl (by omega))
  · rw [if_neg h1]
    by_cases h2 : 48 + b < 48 + a
    · rw [if_pos h2]
      refine iff_of_false (by simp) ?_
      rintro (h | ⟨h, -⟩) <;> omega
    · rw [if_neg h2]
      constructor
      · intro h
        exact Or.inr ⟨by omega, h⟩
      · rintro (h | ⟨-, h⟩)
        · omega
        · exact h

theorem fourDigits_append_lt (y1 y2 : Nat) (h1 : y1 ≤ 9999) (h2 : y2 ≤ 9999)
    (s t : List Char) :
    (jsStrLt (fourDigits y1 ++ s) (fourDigits y2 ++ t) = true) ↔
      (y1 < y2 ∨ (y1 = y2 ∧ jsStrLt s t = true)) := by
  simp only [fourDigits, List.cons_append, List.nil_append]
  rw [jsStrLt_digit_cons _ _ (by omega) (by omega),
    jsStrLt_digit_cons _ _ (by omega) (by omega),
    jsStrLt_digit_cons _ _ (by omega) (by omega),
    jsStrLt_digit_cons _ _ (by omega) (by omega)]
  by_cases hP : jsStrLt s t = true
  · simp only [hP, and_true]
    omega
  · simp only [hP, Bool.false_eq_true, and_false, or_false]
    omega

theorem twoDigits_lt (w1 w2 : Nat) (h1 : w1 ≤ 99) (h2 : w2 ≤ 99) :
    (jsStrLt (twoDigits w1) (twoDigits w2) = true) ↔ w1 < w2 := by
  simp only [twoDigits]
  rw [jsStrLt_digit_cons _ _ (by omega) (by omega),
    jsStrLt_digit_cons _ _ (by omega) (by omega)]
  simp only [show jsStrLt [] [] = false from rfl]
  simp only [Bool.false_eq_true, and_false, or_false]
  omega

theorem weekKeyOf_shape (ms : Int) (h1 : 1000 ≤ (getISOWeek ms).1)
    (h2 : (getISOWeek ms).1 ≤ 9999) :
    weekKeyOf ms =
      fourDigits (getISOWeek ms).1.toNat ++ '-' :: 'W' :: twoDigits (getISOWeek ms).2.toNat := by
  have hw := getISOWeek_bounds ms
  rw [weekKeyOf, jsIntRepr, if_neg (by omega), jsIntRepr, if_neg (by omega),
    jsNatRepr_four _ (by omega) (by omega), padStart2_two _ (by omega)]

theorem getMonthKey_shape (ms : Int) (h1 : 1000 ≤ yearOf ms) (h2 : yearOf ms ≤ 9999) :
    getMonthKey ms = fourDigits (yearOf ms).toNat ++ '-' :: twoDigits (monthOf ms) := by
  have hm := monthOf_bounds ms
  rw [getMonthKey, jsIntRepr, if_neg (by omega), jsNatRepr_four _ (by omega) (by omega),
    padStart2_two _ (by omega)]

/-- C8 (amended): for instants whose ISO week year and UTC year have four
digits (1000 to 9999), the week key strings order by `jsStrLt` exactly as
the ISO (year, week) pairs order chronologically, and the month key strings
order exactly as the UTC (year, month) pairs order chronologically. -/
theorem key_order_iff_pair_order (t1 t2 : Int)
    (hw1 : 1000 ≤ (getISOWeek t1).1) (hw2 : (getISOWeek t1).1 ≤ 9999)
    (hw3 : 1000 ≤ (getISOWeek t2).1) (hw4 : (getISOWeek t2).1 ≤ 9999)
    (hm1 : 1000 ≤ yearOf t1) (hm2 : yearOf t1 ≤ 9999)
    (hm3 : 1000 ≤ yearOf t2) (hm4 : yearOf t2 ≤ 9999) :
    ((jsStrLt (weekKeyOf t1) (weekKeyOf t2) = true) ↔
      ((getISOWeek t1).1 < (getISOWeek t2).1 ∨
        ((getISOWeek t1).1 = (getISOWeek t2).1 ∧ (getISOWeek t1).2 < (getISOWeek t2).2))) ∧
    ((jsStrLt (getMonthKey t1) (getMonthKey t2) = true) ↔
      (yearOf t1 < yearOf t2 ∨ (yearOf t1 = yearOf t2 ∧ monthOf t1 < monthOf t2))) := by
  have hb1 := getISOWeek_bounds t1
  have hb2 := getISOWeek_bounds t2
  have hmo1 := monthOf_bounds t1
  have hmo2 := monthOf_bounds t2
  constructor
  · rw [weekKeyOf_shape t1 hw1 hw2, weekKeyOf_shape t2 hw3 hw4,
      fourDigits_append_lt _ _ (by omega) (by omega),
      jsStrLt_same_cons, jsStrLt_same_cons, twoDigits_lt _ _ (by omega) (by omega)]
    omega
  · rw [getMonthKey_shape t1 hm1 hm2, getMonthKey_shape t2 hm3 hm4,
      fourDigits_append_lt _ _ (by omega) (by omega),
      jsStrLt_same_cons, twoDigits_lt _ _ (by omega) (by omega)]
    omega

/-- C8 (counterexample): at 0999-06-15T00:00:00Z (-30627504000000 ms) and
1970-06-15T00:00:00Z (14256000000 ms) the ISO week pair and the UTC month
pair of the first instant are chronologically earlier, yet neither its week
key "999-W24" nor its month key "999-06" compares below the other keys
"1970-W25" and "1970-06", because a three-digit year breaks the fixed-width
assumption of the string order. -/
theorem key_order_counterexample :
    (getISOWeek (-30627504000000)).1 < (getISOWeek 14256000000).1 ∧
    jsStrLt (weekKeyOf (-30627504000000)) (weekKeyOf 14256000000) = false ∧
    yearOf (-30627504000000) < yearOf 14256000000 ∧
    jsStrLt (getMonthKey (-30627504000000)) (getMonthKey 14256000000) = false := by
  exact ⟨by decide, by decide, by decide, by decide⟩

/-- Witness of the amended C8 theorem at 2025-12-28T00:00:00Z (ISO week
2025-W52) and 2025-12-29T00:00:00Z (ISO week 2026-W01). -/
theorem key_order_iff_pair_order_witness :
    ((jsStrLt (weekKeyOf 1766880000000) (weekKeyOf 1766966400000) = true) ↔
      ((getISOWeek 1766880000000).1 < (getISOWeek 1766966400000).1 ∨
        ((getISOWeek 1766880000000).1 = (getISOWeek 1766966400000).1 ∧
          (getISOWeek 1766880000000).2 < (getISOWeek 1766966400000).2))) ∧
    ((jsStrLt (getMonthKey 1766880000000) (getMonthKey 1766966400000) = true) ↔
      (yearOf 1766880000000 < yearOf 1766966400000 ∨
        (yearOf 1766880000000 = yearOf 1766966400000 ∧
          monthOf 1766880000000 < monthOf 1766966400000))) :=
  key_order_iff_pair_order 1766880000000 1766966400000 (by decide) (by decide) (by decide)
    (by decide) (by decide) (by decide) (by decide) (by decide)

/-! ### List machinery for the classifier proofs -/

theorem perm_eq_of_pairwise {α : Type} {r : α → α → Prop}
    (hasymm : ∀ a b, r a b → r b a → False) :
    ∀ l1 l2 : List α, l1.Perm l2 → l1.Pairwise r → l2.Pairwise r → l1 = l2 := by
  intro l1
  induction l1 with
  | nil =>
    intro l2 hp _ _
    exact (List.perm_nil.mp hp.symm).symm
  | cons a t ih =>
    intro l2 hp h1 h2
    cases l2 with
    | nil => exact absurd hp.symm (by simp)
    | cons b t2 =>
      by_cases hab : a = b
      · subst hab
        rw [ih t2 hp.cons_inv h1.of_cons h2.of_cons]
      · exfalso
        have ha2 : a ∈ t2 := by
          have := hp.subset (List.mem_cons_self a t)
          simpa [hab] using this
        have hb1 : b ∈ t := by
          have := hp.symm.subset (List.mem_cons_self b t2)
          simpa [Ne.symm hab] using this
        exact hasymm a b (List.rel_of_pairwise_cons h1 hb1) (List.rel_of_pairwise_cons h2 ha2)

theorem mem_filter_not_contains {l : List BackupManifest} {A : List String}
    {m : BackupManifest} :
    m ∈ l.filter (fun x => !(A.contains x.id)) ↔ m ∈ l ∧ m.id ∉ A := by
  rw [List.mem_filter]
  simp [List.contains]

theorem filter_contains_perm (l sub : List BackupManifest)
    (hl : l.Pairwise (fun a b => a.id ≠ b.id)) (hnd : sub.Nodup)
    (hmem : ∀ a ∈ sub, a ∈ l) :
    (l.filter (fun x => (sub.map (fun n => n.id)).contains x.id)).Perm sub := by
  have hlnd : l.Nodup := hl.imp (fun h heq => h (by rw [heq]))
  refine (List.perm_ext_iff_of_nodup (hlnd.filter _) hnd).mpr ?_
  intro a
  rw [List.mem_filter]
  constructor
  · rintro ⟨hal, hc⟩
    have hmm : a.id ∈ sub.map (fun n => n.id) := by simpa [List.contains] using hc
    obtain ⟨b, hb, hbid⟩ := List.mem_map.mp hmm
    have hba : b = a := by
      by_contra hne
      have hsymm : Symmetric (fun a b : BackupManifest => a.id ≠ b.id) := by
        intro x y h e
        exact h e.symm
      exact List.Pairwise.forall hsymm hl (hmem b hb) hal hne hbid
    exact hba ▸ hb
  · intro ha
    refine ⟨hmem a ha, ?_⟩
    simp only [List.contains, List.elem_eq_mem, decide_eq_true_eq]
    exact List.mem_map.mpr ⟨a, ha, rfl⟩

theorem perm_split (l sub : List BackupManifest)
    (hl : l.Pairwise (fun a b => a.id ≠ b.id)) (hnd : sub.Nodup)
    (hmem : ∀ a ∈ sub, a ∈ l) :
    l.Perm (sub ++ l.filter (fun x => !((sub.map (fun n => n.id)).contains x.id))) := by
  have h1 := List.filter_append_perm (fun x => (sub.map (fun n => n.id)).contains x.id) l
  have h2 := filter_contains_perm l sub hl hnd hmem
  exact h1.symm.trans (h2.append_right _)

theorem insertGroup_flat_perm (k : List Char) (a : BackupManifest)
    (gs : List (List Char × List BackupManifest)) :
    (groupsFlat (insertGroup k a gs)).Perm (groupsFlat gs ++ [a]) := by
  induction gs with
  | nil =>
    show groupsFlat [(k, [a])] |>.Perm (groupsFlat [] ++ [a])
    simp [groupsFlat]
  | cons g gs ih =>
    by_cases hk : g.1 = k
    · have hstep : insertGroup k a (g :: gs) = (g.1, g.2 ++ [a]) :: gs := by
        rw [insertGroup, if_pos hk]
      rw [hstep]
      simp only [groupsFlat, List.map_cons, List.flatten_cons]
      rw [List.append_assoc, List.append_assoc]
      exact List.Perm.append_left g.2 List.perm_append_comm
    · have hstep : insertGroup k a (g :: gs) = g :: insertGroup k a gs := by
        rw [insertGroup, if_neg hk]
      rw [hstep]
      simp only [groupsFlat, List.map_cons, List.flatten_cons] at *
      have h1 := List.Perm.append_left g.2 ih
      rw [← List.append_assoc] at h1
      exact h1

theorem foldl_insertGroup_flat_perm (key : BackupManifest → List Char) :
    ∀ (l : List BackupManifest) (acc : List (List Char × List BackupManifest)),
      (groupsFlat (l.foldl (fun acc a => insertGroup (key a) a acc) acc)).Perm
        (groupsFlat acc ++ l) := by
  intro l
  induction l with
  | nil =>
    intro acc
    simp
  | cons a l ih =>
    intro acc
    rw [List.foldl_cons]
    have h1 := ih (insertGroup (key a) a acc)
    have h2 := (insertGroup_flat_perm (key a) a acc).append_right l
    have h3 : groupsFlat acc ++ [a] ++ l = groupsFlat acc ++ a :: l := by simp
    rw [h3] at h2
    exact h1.trans h2

theorem groupByKey_flat_perm (key : BackupManifest → List Char) (l : List BackupManifest) :
    (groupsFlat (groupByKey key l)).Perm l := by
  have h := foldl_insertGroup_flat_perm key l []
  have h0 : groupsFlat [] ++ l = l := by simp [groupsFlat]
  rw [h0] at h
  exact h

theorem insertGroup_nonempty (k : List Char) (a : BackupManifest)
    (gs : List (List Char × List BackupManifest)) (h : ∀ g ∈ gs, g.2 ≠ []) :
    ∀ g ∈ insertGroup k a gs, g.2 ≠ [] := by
  induction gs with
  | nil =>
    intro g hg
    simp only [insertGroup, List.mem_singleton] at hg
    subst hg
    simp
  | cons g0 gs ih =>
    intro g hg
    by_cases hk : g0.1 = k
    · rw [insertGroup, if_pos hk] at hg
      rcases List.mem_cons.mp hg with h1 | h1
      · subst h1
        simp
      · exact h g (List.mem_cons_of_mem _ h1)
    · rw [insertGroup, if_neg hk] at hg
      rcases List.mem_cons.mp hg with h1 | h1
      · subst h1
        exact h g (List.mem_cons_self _ _)
      · exact ih (fun g2 hg2 => h g2 (List.mem_cons_of_mem _ hg2)) g h1

theorem groupByKey_nonempty (key : BackupManifest → List Char) (l : List BackupManifest) :
    ∀ g ∈ groupByKey key l, g.2 ≠ [] := by
  have main : ∀ (l : List BackupManifest) (acc : List (List Char × List BackupManifest)),
      (∀ g ∈ acc, g.2 ≠ []) →
      ∀ g ∈ l.foldl (fun acc a => insertGroup (key a) a acc) acc, g.2 ≠ [] := by
    intro l
    induction l with
    | nil => exact fun acc h => h
    | cons a l ih =>
      intro acc h
      rw [List.foldl_cons]
      exact ih _ (insertGroup_nonempty (key a) a acc h)
  exact main l [] (by simp)

theorem oldestOf_mem (g : List BackupManifest) (h : g ≠ []) : oldestOf g ∈ g := by
  have hp := List.perm_insertionSort tsAsc g
  cases hs : List.insertionSort tsAsc g with
  | nil =>
    rw [hs] at hp
    exact absurd (List.perm_nil.mp hp.symm) h
  | cons x xs =>
    rw [hs] at hp
    have : oldestOf g = x := by rw [oldestOf, hs]; rfl
    rw [this]
    exact hp.subset (List.mem_cons_self x xs)

theorem candidatesOf_mem (gs : List (List Char × List BackupManifest))
    (hne : ∀ g ∈ gs, g.2 ≠ []) :
    ∀ p ∈ candidatesOf gs, p.2 ∈ groupsFlat gs := by
  intro p hp
  obtain ⟨g, hg, rfl⟩ := List.mem_map.mp hp
  have hm := oldestOf_mem g.2 (hne g hg)
  exact List.mem_flatten.mpr ⟨g.2, List.mem_map.mpr ⟨g, hg, rfl⟩, hm⟩

theorem candidatesOf_nodup (gs : List (List Char × List BackupManifest))
    (hfl : (groupsFlat gs).Nodup) (hne : ∀ g ∈ gs, g.2 ≠ []) :
    ((candidatesOf gs).map (fun p => p.2)).Nodup := by
  induction gs with
  | nil => simp [candidatesOf]
  | cons g gs ih =>
    have hflat : groupsFlat (g :: gs) = g.2 ++ groupsFlat gs := by
      simp [groupsFlat]
    rw [hflat] at hfl
    obtain ⟨hnd1, hnd2, hdisj⟩ := List.nodup_append.mp hfl
    have hpick : (candidatesOf (g :: gs)).map (fun p => p.2) =
        oldestOf g.2 :: (candidatesOf gs).map (fun p => p.2) := by
      simp [candidatesOf]
    rw [hpick]
    refine List.nodup_cons.mpr ⟨?_, ih hnd2 (fun g2 hg2 => hne g2 (List.mem_cons_of_mem _ hg2))⟩
    intro hmem
    obtain ⟨p, hp, heq⟩ := List.mem_map.mp hmem
    have hin : oldestOf g.2 ∈ groupsFlat gs := by
      rw [← heq]
      exact candidatesOf_mem gs (fun g2 hg2 => hne g2 (List.mem_cons_of_mem _ hg2)) p hp
    exact hdisj (oldestOf_mem g.2 (hne g (List.mem_cons_self _ _))) hin

theorem contains_append (A B : List String) (x : String) :
    (A ++ B).contains x = (A.contains x || B.contains x) := by
  simp [List.contains]

theorem idNe_nodup {l : List BackupManifest} (h : l.Pairwise (fun a b => a.id ≠ b.id)) :
    l.Nodup :=
  h.imp (fun hne heq => hne (by rw [heq]))

theorem split1 (s : List BackupManifest) (c : GFSConfig)
    (hs : s.Pairwise (fun a b => a.id ≠ b.id)) :
    s.Perm (dailyPart s c ++ remaining1 s c) := by
  have hdTake : (dailyPart s c).Sublist s := List.take_sublist _ _
  exact perm_split s (dailyPart s c) hs (hdTake.nodup (idNe_nodup hs))
    (fun a ha => hdTake.subset ha)

theorem remaining1_pairwise (s : List BackupManifest) (c : GFSConfig)
    (hs : s.Pairwise (fun a b => a.id ≠ b.id)) :
    (remaining1 s c).Pairwise (fun a b => a.id ≠ b.id) :=
  hs.filter _

theorem remaining2_pairwise (s : List BackupManifest) (c : GFSConfig)
    (hs : s.Pairwise (fun a b => a.id ≠ b.id)) :
    (remaining2 s c).Pairwise (fun a b => a.id ≠ b.id) :=
  hs.filter _

theorem chosen_nodup_mem (r : List BackupManifest)
    (hr : r.Pairwise (fun a b => a.id ≠ b.id)) (key : BackupManifest → List Char) (n : Nat) :
    (((List.insertionSort keyDesc (candidatesOf (groupByKey key r))).take n).map
        (fun p => p.2)).Nodup ∧
    (∀ a ∈ ((List.insertionSort keyDesc (candidatesOf (groupByKey key r))).take n).map
        (fun p => p.2), a ∈ r) := by
  have hgperm := groupByKey_flat_perm key r
  have hgne := groupByKey_nonempty key r
  have hflnd : (groupsFlat (groupByKey key r)).Nodup :=
    hgperm.nodup_iff.mpr (idNe_nodup hr)
  have hcnd := candidatesOf_nodup _ hflnd hgne
  have hsortPerm := List.perm_insertionSort keyDesc (candidatesOf (groupByKey key r))
  have htakeSub : ((List.insertionSort keyDesc (candidatesOf (groupByKey key r))).take n).Sublist
      (List.insertionSort keyDesc (candidatesOf (groupByKey key r))) := List.take_sublist _ _
  constructor
  · exact (htakeSub.map _).nodup ((hsortPerm.map _).nodup_iff.mpr hcnd)
  · intro a ha
    obtain ⟨p, hp, rfl⟩ := List.mem_map.mp ha
    have hpc : p ∈ candidatesOf (groupByKey key r) := hsortPerm.subset (htakeSub.subset hp)
    exact hgperm.subset (candidatesOf_mem _ hgne p hpc)

theorem split2 (s : List BackupManifest) (c : GFSConfig)
    (hs : s.Pairwise (fun a b => a.id ≠ b.id)) :
    (remaining1 s c).Perm ((weeklyPart s c).map (fun p => p.2) ++ remaining2 s c) := by
  obtain ⟨hnd, hmem⟩ := chosen_nodup_mem (remaining1 s c) (remaining1_pairwise s c hs)
    (fun m => weekKeyOf m.timestamp) c.weekly
  have hps := perm_split (remaining1 s c) ((weeklyPart s c).map (fun p => p.2))
    (remaining1_pairwise s c hs) hnd hmem
  have heq : (remaining1 s c).filter
      (fun x => !((((weeklyPart s c).map (fun p => p.2)).map (fun n => n.id)).contains x.id)) =
      remaining2 s c := by
    rw [remaining1, remaining2, List.filter_filter]
    apply List.filter_congr
    intro a _
    rw [assignedIds2, contains_append, List.map_map]
    simp only [Function.comp_def]
    rw [Bool.not_or, Bool.and_comm]
  rw [heq] at hps
  exact hps

theorem split3 (s : List BackupManifest) (c : GFSConfig)
    (hs : s.Pairwise (fun a b => a.id ≠ b.id)) :
    (remaining2 s c).Perm ((monthlyPart s c).map (fun p => p.2) ++ prunablePart s c) := by
  obtain ⟨hnd, hmem⟩ := chosen_nodup_mem (remaining2 s c) (remaining2_pairwise s c hs)
    (fun m => getMonthKey m.timestamp) c.monthly
  have hps := perm_split (remaining2 s c) ((monthlyPart s c).map (fun p => p.2))
    (remaining2_pairwise s c hs) hnd hmem
  have heq : (remaining2 s c).filter
      (fun x => !((((monthlyPart s c).map (fun p => p.2)).map (fun n => n.id)).contains x.id)) =
      prunablePart s c := by
    rw [remaining2, prunablePart, List.filter_filter]
    apply List.filter_congr
    intro a _
    rw [assignedIds3, contains_append, List.map_map]
    simp only [Function.comp_def]
    rw [Bool.not_or, Bool.and_comm]
  rw [heq] at hps
  exact hps

theorem classifySorted_manifests_perm (s : List BackupManifest) (c : GFSConfig)
    (hs : s.Pairwise (fun a b => a.id ≠ b.id)) :
    ((classifySorted s c).map (fun r => r.manifest)).Perm s := by
  have hblocks : ((classifySorted s c).map (fun r => r.manifest)).Perm
      (dailyPart s c ++ ((weeklyPart s c).map (fun p => p.2) ++
        ((monthlyPart s c).map (fun p => p.2) ++ prunablePart s c))) := by
    have h1 := (List.perm_insertionSort recTsDesc
      ((dailyPart s c).map (fun m => (⟨m, .daily, newestReason c.daily⟩ : TieredBackup))
        ++ (weeklyPart s c).map (fun p => ⟨p.2, .weekly, weekReason p.1⟩)
        ++ (monthlyPart s c).map (fun p => ⟨p.2, .monthly, monthReason p.1⟩)
        ++ (prunablePart s c).map (fun m => ⟨m, .prunable, exceedsReason⟩))).map
      (fun r => r.manifest)
    have heq2 : (((dailyPart s c).map (fun m => (⟨m, .daily, newestReason c.daily⟩ : TieredBackup))
        ++ (weeklyPart s c).map (fun p => (⟨p.2, .weekly, weekReason p.1⟩ : TieredBackup))
        ++ (monthlyPart s c).map (fun p => (⟨p.2, .monthly, monthReason p.1⟩ : TieredBackup))
        ++ (prunablePart s c).map (fun m => (⟨m, .prunable, exceedsReason⟩ : TieredBackup))).map
          (fun r => r.manifest)) =
        dailyPart s c ++ ((weeklyPart s c).map (fun p => p.2) ++
          ((monthlyPart s c).map (fun p => p.2) ++ prunablePart s c)) := by
      simp [Function.comp_def, List.append_assoc]
    rw [classifySorted]
    rw [heq2] at h1
    exact h1
  have hchain : s.Perm
      (dailyPart s c ++ ((weeklyPart s c).map (fun p => p.2) ++
        ((monthlyPart s c).map (fun p => p.2) ++ prunablePart s c))) := by
    refine (split1 s c hs).trans ?_
    refine List.Perm.append_left _ ?_
    refine (split2 s c hs).trans ?_
    exact List.Perm.append_left _ (split3 s c hs)
  exact hblocks.trans hchain.symm

theorem classifyBackups_manifests_perm (B : List BackupManifest) (C : GFSConfig)
    (h : B.Pairwise (fun a b => a.id ≠ b.id)) :
    ((classifyBackups B C).map (fun r => r.manifest)).Perm B := by
  by_cases hB : B.length = 0
  · have hnil : B = [] := List.length_eq_zero.mp hB
    subst hnil
    rw [classifyBackups]
    simp
  · rw [classifyBackups, if_neg hB]
    have hsp := List.perm_insertionSort tsDesc B
    have hpair : (List.insertionSort tsDesc B).Pairwise (fun a b => a.id ≠ b.id) :=
      (hsp.pairwise_iff (fun hne heq => hne heq.symm)).mpr h
    exact (classifySorted_manifests_perm _ C hpair).trans hsp

/-! ### Claim theorems about the classifier -/

/-- C1: on backups with pairwise distinct identifiers, `classifyBackups`
returns exactly one record per input backup: the output length equals the
input length, the multiset of classified manifests is exactly the input,
every input backup appears exactly once, and every record carries exactly
one of the four tiers. -/
theorem classify_is_bijection (B : List BackupManifest) (C : GFSConfig)
    (h : B.Pairwise (fun a b => a.id ≠ b.id)) :
    (classifyBackups B C).length = B.length ∧
    ((classifyBackups B C).map (fun r => r.manifest)).Perm B ∧
    (∀ b ∈ B, ((classifyBackups B C).map (fun r => r.manifest)).count b = 1) ∧
    (∀ r ∈ classifyBackups B C, r.tier = .daily ∨ r.tier = .weekly ∨ r.tier = .monthly ∨
      r.tier = .prunable) := by
  have hperm := classifyBackups_manifests_perm B C h
  refine ⟨?_, hperm, ?_, ?_⟩
  · have hl := hperm.length_eq
    simpa using hl
  · intro b hb
    have hnd : ((classifyBackups B C).map (fun r => r.manifest)).Nodup :=
      hperm.nodup_iff.mpr (idNe_nodup h)
    exact List.count_eq_one_of_mem hnd (hperm.mem_iff.mpr hb)
  · intro r _
    cases hr : r.tier <;> simp

/-- C3: on backups with pairwise distinct identifiers, at most
`daily + weekly + monthly` records of `classifyBackups` carry a non
prunable tier, a record carrying none of the three retention tiers is
prunable, and with an all-zero configuration every record is prunable. -/
theorem classify_tier_budget (B : List BackupManifest) (C : GFSConfig)
    (h : B.Pairwise (fun a b => a.id ≠ b.id)) :
    (classifyBackups B C).countP (fun r => !(r.tier == .prunable)) ≤
      C.daily + C.weekly + C.monthly ∧
    (∀ r ∈ classifyBackups B C, r.tier ≠ .daily → r.tier ≠ .weekly → r.tier ≠ .monthly →
      r.tier = .prunable) ∧
    ((C.daily = 0 ∧ C.weekly = 0 ∧ C.monthly = 0) →
      ∀ r ∈ classifyBackups B C, r.tier = .prunable) := by
  refine ⟨?_, ?_, ?_⟩
  · by_cases hB : B.length = 0
    · rw [classifyBackups, if_pos hB]
      simp
    · rw [classifyBackups, if_neg hB, classifySorted]
      rw [(List.perm_insertionSort recTsDesc _).countP_eq]
      rw [List.countP_append, List.countP_append, List.countP_append]
      have hdaily : (List.countP (fun r => !(r.tier == BackupTier.prunable))
          ((dailyPart (List.insertionSort tsDesc B) C).map
            (fun m => (⟨m, .daily, newestReason C.daily⟩ : TieredBackup)))) ≤ C.daily := by
        rw [List.countP_map]
        calc List.countP _ _ ≤ (dailyPart (List.insertionSort tsDesc B) C).length :=
              List.countP_le_length _
          _ ≤ C.daily := List.length_take_le _ _
      have hweekly : (List.countP (fun r => !(r.tier == BackupTier.prunable))
          ((weeklyPart (List.insertionSort tsDesc B) C).map
            (fun p => (⟨p.2, .weekly, weekReason p.1⟩ : TieredBackup)))) ≤ C.weekly := by
        rw [List.countP_map]
        calc List.countP _ _ ≤ (weeklyPart (List.insertionSort tsDesc B) C).length :=
              List.countP_le_length _
          _ ≤ C.weekly := List.length_take_le _ _
      have hmonthly : (List.countP (fun r => !(r.tier == BackupTier.prunable))
          ((monthlyPart (List.insertionSort tsDesc B) C).map
            (fun p => (⟨p.2, .monthly, monthReason p.1⟩ : TieredBackup)))) ≤ C.monthly := by
        rw [List.countP_map]
        calc List.countP _ _ ≤ (monthlyPart (List.insertionSort tsDesc B) C).length :=
              List.countP_le_length _
          _ ≤ C.monthly := List.length_take_le _ _
      have hprunable : (List.countP (fun r => !(r.tier == BackupTier.prunable))
          ((prunablePart (List.insertionSort tsDesc B) C).map
            (fun m => (⟨m, .prunable, exceedsReason⟩ : TieredBackup)))) = 0 := by
        rw [List.countP_map]
        apply List.countP_eq_zero.mpr
        intro a _
        simp [Function.comp]
      omega
  · intro r _ h1 h2 h3
    cases hr : r.tier
    · exact absurd hr h1
    · exact absurd hr h2
    · exact absurd hr h3
    · rfl
  · rintro ⟨h1, h2, h3⟩ r hr
    by_cases hB : B.length = 0
    · rw [classifyBackups, if_pos hB] at hr
      exact absurd hr (List.not_mem_nil r)
    · rw [classifyBackups, if_neg hB, classifySorted] at hr
      have hmem := (List.perm_insertionSort recTsDesc _).subset hr
      rw [weeklyPart, monthlyPart, dailyPart, h1, h2, h3] at hmem
      simp only [List.take_zero, List.map_nil, List.nil_append] at hmem
      obtain ⟨m, -, rfl⟩ := List.mem_map.mp hmem
      rfl

/-- C10: on backups with pairwise distinct identifiers and timestamps, the
output of `classifyBackups` is strictly sorted by timestamp, newest
first, whatever tier each record received. -/
theorem classify_output_sorted_desc (B : List BackupManifest) (C : GFSConfig)
    (hid : B.Pairwise (fun a b => a.id ≠ b.id))
    (hts : B.Pairwise (fun a b => a.timestamp ≠ b.timestamp)) :
    (classifyBackups B C).Pairwise
      (fun r s => s.manifest.timestamp < r.manifest.timestamp) := by
  by_cases hB : B.length = 0
  · rw [classifyBackups, if_pos hB]
    exact List.Pairwise.nil
  · have hsorted : (classifyBackups B C).Pairwise recTsDesc := by
      rw [classifyBackups, if_neg hB, classifySorted]
      exact List.sorted_insertionSort recTsDesc _
    have hperm := classifyBackups_manifests_perm B C hid
    have htsmap : ((classifyBackups B C).map (fun r => r.manifest)).Pairwise
        (fun a b => a.timestamp ≠ b.timestamp) :=
      (hperm.pairwise_iff (fun hne heq => hne heq.symm)).mpr hts
    have htsout : (classifyBackups B C).Pairwise
        (fun r s => r.manifest.timestamp ≠ s.manifest.timestamp) := by
      rw [List.pairwise_map] at htsmap
      exact htsmap
    exact (hsorted.and htsout).imp
      (fun hp => lt_of_le_of_ne hp.1 (fun heq => hp.2 heq.symm))

/-- C2 (counterexample): two backups with distinct identifiers but equal
timestamps, configuration counts 1, 0, 0: on the input `[a, b]` the record of `a` is
daily, on the permuted input `[b, a]` it is not, so the two classification
sets differ. -/
theorem classify_not_order_independent :
    (([⟨"b", 0⟩, ⟨"a", 0⟩] : List BackupManifest).Perm [⟨"a", 0⟩, ⟨"b", 0⟩]) ∧
    (([⟨"a", 0⟩, ⟨"b", 0⟩] : List BackupManifest).Pairwise (fun a b => a.id ≠ b.id)) ∧
    ((⟨⟨"a", 0⟩, .daily, newestReason 1⟩ : TieredBackup) ∈
      classifyBackups [⟨"a", 0⟩, ⟨"b", 0⟩] ⟨1, 0, 0⟩) ∧
    ((⟨⟨"a", 0⟩, .daily, newestReason 1⟩ : TieredBackup) ∉
      classifyBackups [⟨"b", 0⟩, ⟨"a", 0⟩] ⟨1, 0, 0⟩) := by
  refine ⟨List.Perm.swap _ _ _, ?_, ?_, ?_⟩ <;> decide

/-- C2 (amended): on backups with pairwise distinct timestamps the
classification does not depend on the input order at all: a permuted input
yields the identical output list (hence the same set). -/
theorem classify_order_independent_of_distinct_ts (B B2 : List BackupManifest)
    (C : GFSConfig) (hperm : B2.Perm B)
    (hts : B.Pairwise (fun a b => a.timestamp ≠ b.timestamp)) :
    classifyBackups B2 C = classifyBackups B C := by
  have hlen : B2.length = B.length := hperm.length_eq
  by_cases hB : B.length = 0
  · rw [classifyBackups, classifyBackups, if_pos (by omega), if_pos hB]
  · rw [classifyBackups, classifyBackups, if_neg (by omega), if_neg hB]
    have hts2 : B2.Pairwise (fun a b => a.timestamp ≠ b.timestamp) :=
      (hperm.pairwise_iff (fun hne heq => hne heq.symm)).mpr hts
    have strict : ∀ l : List BackupManifest,
        l.Pairwise (fun a b => a.timestamp ≠ b.timestamp) →
        (List.insertionSort tsDesc l).Pairwise
          (fun a b => b.timestamp < a.timestamp) := by
      intro l hl
      have h1 : (List.insertionSort tsDesc l).Pairwise tsDesc :=
        List.sorted_insertionSort tsDesc l
      have h2 : (List.insertionSort tsDesc l).Pairwise
          (fun a b => a.timestamp ≠ b.timestamp) :=
        ((List.perm_insertionSort tsDesc l).pairwise_iff
          (fun hne heq => hne heq.symm)).mpr hl
      exact (h1.and h2).imp (fun hp => lt_of_le_of_ne hp.1 (fun e => hp.2 e.symm))
    have heqs : List.insertionSort tsDesc B2 = List.insertionSort tsDesc B := by
      apply perm_eq_of_pairwise
        (fun (a b : BackupManifest) h1 h2 => absurd h1 (Int.lt_asymm h2))
        _ _ (((List.perm_insertionSort tsDesc B2).trans hperm).trans
          (List.perm_insertionSort tsDesc B).symm)
        (strict B2 hts2) (strict B hts)
    rw [heqs]

/-- C9: every record returned by `getBackupsToPrune` carries the tier
`prunable` and is, unchanged, a record of the `classifyBackups` output: the
floor only declines deletions and never relabels a record. -/
theorem prune_subset_of_classification (B : List BackupManifest) (C : GFSConfig) (k : Nat) :
    ∀ r ∈ getBackupsToPrune B C k, r.tier = .prunable ∧ r ∈ classifyBackups B C := by
  intro r hr
  rw [getBackupsToPrune] at hr
  by_cases hB : B.length = 0
  · rw [if_pos hB] at hr
    exact absurd hr (List.not_mem_nil r)
  · rw [if_neg hB] at hr
    have h1 := (List.take_sublist _ _).subset hr
    have h2 := (List.perm_insertionSort recTsAsc _).subset h1
    have h3 := List.mem_filter.mp h2
    refine ⟨?_, h3.1⟩
    have := h3.2
    simpa using this

/-- C4: `getBackupsToPrune` returns the oldest
`min(p, max(0, total - minKeep))` prunable records (`p` the prunable
count): its length is that minimum, every returned record is prunable in
the classification, every prunable record left out is at least as new as
every returned one, and `total ≤ minKeep` returns nothing; concretely,
three backups under an all-zero config with `minKeep = 2` yield exactly the
single oldest backup. -/
theorem prune_takes_oldest_within_floor :
    (∀ (B : List BackupManifest) (C : GFSConfig) (k : Nat),
      B.Pairwise (fun a b => a.id ≠ b.id) →
      ((getBackupsToPrune B C k).length =
        min ((classifyBackups B C).filter (fun t => t.tier == .prunable)).length
          (B.length - k) ∧
      (∀ r ∈ getBackupsToPrune B C k,
        r ∈ (classifyBackups B C).filter (fun t => t.tier == .prunable)) ∧
      (∀ r ∈ getBackupsToPrune B C k,
        ∀ t ∈ (classifyBackups B C).filter (fun t => t.tier == .prunable),
          t ∉ getBackupsToPrune B C k → r.manifest.timestamp ≤ t.manifest.timestamp) ∧
      (B.length ≤ k → getBackupsToPrune B C k = []))) ∧
    getBackupsToPrune [⟨"a", 0⟩, ⟨"b", 86400000⟩, ⟨"c", 172800000⟩] ⟨0, 0, 0⟩ 2 =
      [⟨⟨"a", 0⟩, .prunable, exceedsReason⟩] := by
  constructor
  · intro B C k hB
    by_cases h0 : B.length = 0
    · have hnil : B = [] := List.length_eq_zero.mp h0
      subst hnil
      refine ⟨?_, ?_, ?_, ?_⟩ <;> simp [getBackupsToPrune, classifyBackups]
    · have hguard : getBackupsToPrune B C k =
          (List.insertionSort recTsAsc
            ((classifyBackups B C).filter (fun t => t.tier == .prunable))).take
            (B.length - k) := by
        rw [getBackupsToPrune, if_neg h0]
      have hprm := List.perm_insertionSort recTsAsc
        ((classifyBackups B C).filter (fun t => t.tier == .prunable))
      refine ⟨?_, ?_, ?_, ?_⟩
      · rw [hguard, List.length_take, hprm.length_eq, Nat.min_comm]
      · intro r hr
        rw [hguard] at hr
        exact hprm.subset ((List.take_sublist _ _).subset hr)
      · intro r hr t ht htn
        have hsorted := List.sorted_insertionSort recTsAsc
          ((classifyBackups B C).filter (fun t => t.tier == .prunable))
        have hsplit := List.take_append_drop (B.length - k)
          (List.insertionSort recTsAsc
            ((classifyBackups B C).filter (fun t => t.tier == .prunable)))
        rw [← hsplit] at hsorted
        obtain ⟨-, -, hcross⟩ := List.pairwise_append.mp hsorted
        have htL : t ∈ List.insertionSort recTsAsc
            ((classifyBackups B C).filter (fun t => t.tier == .prunable)) :=
          hprm.symm.subset ht
        rw [← hsplit] at htL
        rcases List.mem_append.mp htL with h1 | h1
        · rw [hguard] at htn
          exact absurd h1 htn
        · rw [hguard] at hr
          exact hcross r hr t h1
      · intro hk
        rw [hguard, show B.length - k = 0 by omega, List.take_zero]
  · decide

/-- C5: with a floor of zero, `getBackupsToPrune` returns (as a reordered
list, hence as a set) exactly the prunable records of `classifyBackups`. -/
theorem prune_zero_floor_is_prunable_subset (B : List BackupManifest) (C : GFSConfig)
    (h : B.Pairwise (fun a b => a.id ≠ b.id)) :
    (getBackupsToPrune B C 0).Perm
      ((classifyBackups B C).filter (fun t => t.tier == .prunable)) := by
  by_cases h0 : B.length = 0
  · have hnil : B = [] := List.length_eq_zero.mp h0
    subst hnil
    simp [getBackupsToPrune, classifyBackups]
  · rw [getBackupsToPrune, if_neg h0]
    have hcl : (classifyBackups B C).length = B.length := by
      have hl := (classifyBackups_manifests_perm B C h).length_eq
      simpa using hl
    have hprm := List.perm_insertionSort recTsAsc
      ((classifyBackups B C).filter (fun t => t.tier == .prunable))
    have hle : (List.insertionSort recTsAsc
        ((classifyBackups B C).filter (fun t => t.tier == .prunable))).length ≤
        B.length - 0 := by
      rw [hprm.length_eq]
      have := List.length_filter_le (fun t => t.tier == .prunable) (classifyBackups B C)
      omega
    rw [List.take_of_length_le hle]
    exact hprm

/-- Witness of C1 at two backups one day apart and configuration counts 1, 1, 1. -/
theorem classify_is_bijection_witness :
    (([⟨"a", 0⟩, ⟨"b", 86400000⟩] : List BackupManifest).Pairwise
      (fun a b => a.id ≠ b.id)) ∧
    ((classifyBackups [⟨"a", 0⟩, ⟨"b", 86400000⟩] ⟨1, 1, 1⟩).length =
        ([⟨"a", 0⟩, ⟨"b", 86400000⟩] : List BackupManifest).length ∧
      ((classifyBackups [⟨"a", 0⟩, ⟨"b", 86400000⟩] ⟨1, 1, 1⟩).map
          (fun r => r.manifest)).Perm [⟨"a", 0⟩, ⟨"b", 86400000⟩] ∧
      (∀ b ∈ ([⟨"a", 0⟩, ⟨"b", 86400000⟩] : List BackupManifest),
        ((classifyBackups [⟨"a", 0⟩, ⟨"b", 86400000⟩] ⟨1, 1, 1⟩).map
          (fun r => r.manifest)).count b = 1) ∧
      (∀ r ∈ classifyBackups [⟨"a", 0⟩, ⟨"b", 86400000⟩] ⟨1, 1, 1⟩,
        r.tier = .daily ∨ r.tier = .weekly ∨ r.tier = .monthly ∨ r.tier = .prunable)) :=
  ⟨by decide, classify_is_bijection _ _ (by decide)⟩

/-- Witness of the amended C2 at two backups one day apart, swapped. -/
theorem classify_order_independent_witness :
    (([⟨"b", 86400000⟩, ⟨"a", 0⟩] : List BackupManifest).Perm
      [⟨"a", 0⟩, ⟨"b", 86400000⟩]) ∧
    (([⟨"a", 0⟩, ⟨"b", 86400000⟩] : List BackupManifest).Pairwise
      (fun a b => a.timestamp ≠ b.timestamp)) ∧
    classifyBackups [⟨"b", 86400000⟩, ⟨"a", 0⟩] ⟨1, 0, 0⟩ =
      classifyBackups [⟨"a", 0⟩, ⟨"b", 86400000⟩] ⟨1, 0, 0⟩ :=
  ⟨List.Perm.swap _ _ _, by decide,
    classify_order_independent_of_distinct_ts _ _ _ (List.Perm.swap _ _ _) (by decide)⟩

/-- Witness of C3 at two backups one day apart and configuration counts 1, 0, 0. -/
theorem classify_tier_budget_witness :
    (([⟨"a", 0⟩, ⟨"b", 86400000⟩] : List BackupManifest).Pairwise
      (fun a b => a.id ≠ b.id)) ∧
    ((classifyBackups [⟨"a", 0⟩, ⟨"b", 86400000⟩] ⟨1, 0, 0⟩).countP
        (fun r => !(r.tier == .prunable)) ≤ 1 + 0 + 0 ∧
      (∀ r ∈ classifyBackups [⟨"a", 0⟩, ⟨"b", 86400000⟩] ⟨1, 0, 0⟩,
        r.tier ≠ .daily → r.tier ≠ .weekly → r.tier ≠ .monthly → r.tier = .prunable) ∧
      (((1 : Nat) = 0 ∧ (0 : Nat) = 0 ∧ (0 : Nat) = 0) →
        ∀ r ∈ classifyBackups [⟨"a", 0⟩, ⟨"b", 86400000⟩] ⟨1, 0, 0⟩,
          r.tier = .prunable)) :=
  ⟨by decide, classify_tier_budget _ _ (by decide)⟩

/-- Witness of C4 at the concrete three-backup scenario of the claim. -/
theorem prune_takes_oldest_within_floor_witness :
    (([⟨"a", 0⟩, ⟨"b", 86400000⟩, ⟨"c", 172800000⟩] : List BackupManifest).Pairwise
      (fun a b => a.id ≠ b.id)) ∧
    ((getBackupsToPrune [⟨"a", 0⟩, ⟨"b", 86400000⟩, ⟨"c", 172800000⟩] ⟨0, 0, 0⟩ 2).length =
        min ((classifyBackups [⟨"a", 0⟩, ⟨"b", 86400000⟩, ⟨"c", 172800000⟩]
            ⟨0, 0, 0⟩).filter (fun t => t.tier == .prunable)).length
          (([⟨"a", 0⟩, ⟨"b", 86400000⟩, ⟨"c", 172800000⟩] :
            List BackupManifest).length - 2) ∧
      (∀ r ∈ getBackupsToPrune [⟨"a", 0⟩, ⟨"b", 86400000⟩, ⟨"c", 172800000⟩] ⟨0, 0, 0⟩ 2,
        r ∈ (classifyBackups [⟨"a", 0⟩, ⟨"b", 86400000⟩, ⟨"c", 172800000⟩]
          ⟨0, 0, 0⟩).filter (fun t => t.tier == .prunable)) ∧
      (∀ r ∈ getBackupsToPrune [⟨"a", 0⟩, ⟨"b", 86400000⟩, ⟨"c", 172800000⟩] ⟨0, 0, 0⟩ 2,
        ∀ t ∈ (classifyBackups [⟨"a", 0⟩, ⟨"b", 86400000⟩, ⟨"c", 172800000⟩]
          ⟨0, 0, 0⟩).filter (fun t => t.tier == .prunable),
          t ∉ getBackupsToPrune [⟨"a", 0⟩, ⟨"b", 86400000⟩, ⟨"c", 172800000⟩] ⟨0, 0, 0⟩ 2 →
            r.manifest.timestamp ≤ t.manifest.timestamp) ∧
      (([⟨"a", 0⟩, ⟨"b", 86400000⟩, ⟨"c", 172800000⟩] :
          List BackupManifest).length ≤ 2 →
        getBackupsToPrune [⟨"a", 0⟩, ⟨"b", 86400000⟩, ⟨"c", 172800000⟩] ⟨0, 0, 0⟩ 2 = [])) :=
  ⟨by decide, prune_takes_oldest_within_floor.1 _ _ _ (by decide)⟩

/-- Witness of C5 at three backups under an all-zero config. -/
theorem prune_zero_floor_witness :
    (([⟨"a", 0⟩, ⟨"b", 86400000⟩, ⟨"c", 172800000⟩] : List BackupManifest).Pairwise
      (fun a b => a.id ≠ b.id)) ∧
    (getBackupsToPrune [⟨"a", 0⟩, ⟨"b", 86400000⟩, ⟨"c", 172800000⟩] ⟨0, 0, 0⟩ 0).Perm
      ((classifyBackups [⟨"a", 0⟩, ⟨"b", 86400000⟩, ⟨"c", 172800000⟩] ⟨0, 0, 0⟩).filter
        (fun t => t.tier == .prunable)) :=
  ⟨by decide, prune_zero_floor_is_prunable_subset _ _ (by decide)⟩

/-- Witness of C9 at a single backup with an all-zero config. -/
theorem prune_subset_of_classification_witness :
    ((⟨⟨"a", 0⟩, .prunable, exceedsReason⟩ : TieredBackup) ∈
      getBackupsToPrune ([⟨"a", 0⟩] : List BackupManifest) ⟨0, 0, 0⟩ 0) ∧
    ((⟨⟨"a", 0⟩, .prunable, exceedsReason⟩ : TieredBackup).tier = .prunable ∧
      (⟨⟨"a", 0⟩, .prunable, exceedsReason⟩ : TieredBackup) ∈
        classifyBackups ([⟨"a", 0⟩] : List BackupManifest) ⟨0, 0, 0⟩) :=
  ⟨by decide, prune_subset_of_classification ([⟨"a", 0⟩] : List BackupManifest) ⟨0, 0, 0⟩ 0
    ⟨⟨"a", 0⟩, .prunable, exceedsReason⟩ (by decide)⟩

/-- Witness of C10 at two backups one day apart and configuration counts 1, 1, 1. -/
theorem classify_output_sorted_desc_witness :
    (([⟨"a", 0⟩, ⟨"b", 86400000⟩] : List BackupManifest).Pairwise
      (fun a b => a.id ≠ b.id)) ∧
    (([⟨"a", 0⟩, ⟨"b", 86400000⟩] : List BackupManifest).Pairwise
      (fun a b => a.timestamp ≠ b.timestamp)) ∧
    (classifyBackups [⟨"a", 0⟩, ⟨"b", 86400000⟩] ⟨1, 1, 1⟩).Pairwise
      (fun r s => s.manifest.timestamp < r.manifest.timestamp) :=
  ⟨by decide, by decide, classify_output_sorted_desc _ _ (by decide) (by decide)⟩
